import Mathlib

/-!
Verification of the HMAS Bridge Layer (`tools/` of the hhl-mas repository).

Shallow embedding of the Python sources:
* `tools/lib/context.py`   — `ContextAggregator` (context assembly and size limits)
* `tools/lib/gemini_provider.py` — `GeminiProvider` (retry/backoff, degradation)
* `tools/lib/interface.py` — `LeadDevInterface` (mode selection, API-mode wrappers)
* `tools/lib/config.py`    — `Config` (defaults / YAML merge / env overrides)
* `tools/fetch_next.py`    — milestone lifecycle helpers

Machine integers are modelled as `Int`/`Nat`; filesystem directories as
association lists from filename to content; environment effects (document
reading, `git status`, the remote generate call) as explicit oracle
parameters.  Python string slicing `s[:k]` (including negative `k`) is
modelled by `pySliceTo`.
-/

namespace HMAS

/-! ### Python string primitives -/

/-- Python `s[:k]`: for `k ≥ 0` the first `k` characters, for `k < 0` all but
the last `-k` characters (empty when `-k` exceeds the length). -/
def pySliceTo (s : String) (k : Int) : String :=
  if 0 ≤ k then s.take k.toNat
  else s.take (s.length - (-k).toNat)

/-- Python `\s` for ASCII text (space, tab, newline, carriage return,
form feed, vertical tab). -/
def isPySpace (c : Char) : Bool :=
  c = ' ' || c = '\t' || c = '\n' || c = '\r' || c = '\x0c' || c = '\x0b'

/-- Python `str.strip()` restricted to ASCII whitespace. -/
def pyStrip (s : String) : String :=
  ⟨(((s.data.dropWhile isPySpace).reverse.dropWhile isPySpace).reverse)⟩

/-- Python `needle in hay` on strings (substring test). -/
def pyInStr (needle hay : String) : Bool :=
  hay.data.tails.any (fun t => needle.data.isPrefixOf t)

/-- Python `str.lower()` (ASCII). -/
def pyLower (s : String) : String := ⟨s.data.map Char.toLower⟩

/-- List suffix test (structural). -/
def listEndsWith (l sfx : List Char) : Bool :=
  sfx.reverse.isPrefixOf l.reverse

/-- Split a character list at newline characters (the line structure used
by `re.MULTILINE` anchors and by `str.split("\x5cn")`). -/
def splitLinesAux (acc : List Char) : List Char → List (List Char)
  | [] => [acc.reverse]
  | c :: rest =>
    if c = '\n' then acc.reverse :: splitLinesAux [] rest
    else splitLinesAux (c :: acc) rest

/-- The lines of a document, as strings. -/
def pyLines (s : String) : List String :=
  (splitLinesAux [] s.data).map fun l => ⟨l⟩

/-! ### `ContextAggregator` (`tools/lib/context.py`)

The aggregated context is the dict built by `ContextAggregator.aggregate`:
keys `query`, `phase`, `documents` always present, `git_status` present only
when `include_git_status` was set.  The document aggregation result and the
git-status text depend on the filesystem / subprocess environment and enter
the model as parameters. -/

structure Context where
  query : String
  phase : String
  documents : String
  gitStatus : Option String
deriving Repr, DecidableEq

/-- `sum(len(v) for v in context.values())`. -/
def Context.totalChars (c : Context) : Nat :=
  c.query.length + c.phase.length + c.documents.length +
    (c.gitStatus.map String.length).getD 0

/-- `ContextAggregator.CHARS_PER_TOKEN`. -/
def CHARS_PER_TOKEN : Int := 4

/-- The literal truncation marker appended in `_apply_size_limits`. -/
def truncationMarker : String := "\n\n[... truncated for size limit ...]"

/-- The literal replacement used when no budget remains for documents. -/
def omissionMarker : String := "[Documents omitted due to size limit]"

/-- `ContextAggregator._format_phase_info` (Python truthiness: an empty or
absent string contributes no part). -/
def format_phase_info (phase milestone : Option String) : String :=
  let parts : List String :=
    (match milestone with
     | some m => if m ≠ "" then ["Milestone: " ++ m] else []
     | none => []) ++
    (match phase with
     | some p => if p ≠ "" then ["Phase: " ++ p] else []
     | none => [])
  if parts ≠ [] then String.intercalate "\n" parts else "Phase: Unknown"

/-- `ContextAggregator._apply_size_limits`.  `maxTokens` is the configured
`context.max_tokens`. -/
def apply_size_limits (maxTokens : Int) (c : Context) : Context :=
  let maxChars : Int := maxTokens * CHARS_PER_TOKEN
  if (c.totalChars : Int) ≤ maxChars then c
  else
    -- "documents" is always a key of the dict built by `aggregate`
    let queryPhaseChars : Int := c.query.length + c.phase.length
    let gitChars : Int := ((c.gitStatus.map String.length).getD 0 : Nat)
    let availableForDocs : Int := maxChars - queryPhaseChars - gitChars
    if 0 < availableForDocs then
      if availableForDocs < (c.documents.length : Int) then
        { c with documents :=
            pySliceTo c.documents (availableForDocs - 50) ++ truncationMarker }
      else c
    else
      { c with documents := omissionMarker }

/-- `ContextAggregator.aggregate`.  `docsText` is the result of
`_aggregate_documents` (filesystem dependent); `gitText` is
`some (_get_git_status ())` exactly when `include_git_status` was passed. -/
def aggregate (maxTokens : Int) (queryContent : String)
    (phase milestone : Option String)
    (docsText : String) (gitText : Option String) : Context :=
  apply_size_limits maxTokens
    { query := queryContent
      phase := format_phase_info phase milestone
      documents := docsText
      gitStatus := gitText }

/-- Character length of the optional git-status section (absent counts 0). -/
def gitLen (g : Option String) : Int :=
  ((g.map String.length).getD 0 : Nat)

/-- The documents budget `available_for_docs` computed by
`_apply_size_limits` for a call to `aggregate`. -/
def availableForDocs (maxTokens : Int) (q : String)
    (phase milestone : Option String) (gitText : Option String) : Int :=
  maxTokens * CHARS_PER_TOKEN - ((q.length : Int) +
    ((format_phase_info phase milestone).length : Int)) - gitLen gitText


/-! ### `GeminiProvider` (`tools/lib/gemini_provider.py`)

The remote call `self._client.models.generate_content(...)` is modelled by
an oracle `gen : Nat → GenOutcome` giving the outcome of the attempt with
0-based index `i`: either the response text (`response.text`, possibly
empty) or a raised exception rendered as its message.  The retry loops
(`for attempt in range(retry_count)`) are translated structurally with the
number of remaining iterations as fuel, threading the current attempt
index.  Retry delays are modelled as rationals (`time.sleep` arguments);
the second component of `GeminiProvider.query` records the sequence of
sleep durations, the third the number of attempts made. -/

/-- Outcome of one underlying `generate_content` call. -/
inductive GenOutcome where
  | ok (text : String)
  | exn (msg : String)

/-- Result of `GeminiProvider.query`: the stripped response text, or the
`GeminiConnectionError` raised after exhausting retries. -/
inductive QueryResult where
  | ok (text : String)
  | connectionError (msg : String)
deriving Repr, DecidableEq

/-- Python `str(x)` for an `Optional` value (`None` prints as "None"). -/
def pyStrOfOpt (e : Option String) : String :=
  match e with | some s => s | none => "None"

/-- Python `str(n)` for an `int`. -/
def pyStrInt (n : Int) : String :=
  if n < 0 then "-" ++ Nat.repr (-n).toNat else Nat.repr n.toNat

/-- The retry loop body of `GeminiProvider.query` (`for attempt in
range(retry_count)` with `time.sleep(retry_delay * (attempt + 1))` between
attempts and a trailing `raise GeminiConnectionError(...)`).  `remaining`
is the number of loop iterations left, `i` the 0-based attempt index
(`remaining + i = retryCount` at every call), `lastError` the exception
recorded so far. -/
def query_loop (gen : Nat → GenOutcome) (retryDelay : ℚ) (retryCount : Nat) :
    Nat → Nat → Option String → QueryResult × List ℚ × Nat
  | 0, _, lastError =>
    (.connectionError ("Failed to get response after " ++ Nat.repr retryCount
        ++ " attempts: " ++ pyStrOfOpt lastError), [], 0)
  | remaining + 1, i, _ =>
    match gen i with
    | .ok t =>
      if t ≠ "" then (.ok (pyStrip t), [], 1)
      else
        -- empty text raises GeminiResponseError, caught by the same handler
        let r := query_loop gen retryDelay retryCount remaining (i + 1)
          (some "Empty response from Gemini API")
        (r.1, (if 1 ≤ remaining then [retryDelay * (i + 1)] else []) ++ r.2.1,
          r.2.2 + 1)
    | .exn e =>
        let r := query_loop gen retryDelay retryCount remaining (i + 1) (some e)
        (r.1, (if 1 ≤ remaining then [retryDelay * (i + 1)] else []) ++ r.2.1,
          r.2.2 + 1)

/-- `GeminiProvider.query` under the attempt oracle `gen`:
(result, sleep durations, attempts made). -/
def GeminiProvider.query (retryCount : Nat) (retryDelay : ℚ)
    (gen : Nat → GenOutcome) : QueryResult × List ℚ × Nat :=
  query_loop gen retryDelay retryCount retryCount 0 none

/-- The basic acknowledgment string of `GeminiProvider.report_progress`. -/
def basicAck (phase : Int) (status : String) : String :=
  "Acknowledged: Phase " ++ pyStrInt phase ++ " marked as \x27" ++ status
    ++ "\x27"

/-- The retry loop of `GeminiProvider.report_progress`: returns the
stripped response text on success, the basic acknowledgment on an empty
response, and the "(API unavailable)" acknowledgment after exhausting
retries (it never raises). -/
def report_progress_loop (gen : Nat → GenOutcome) (phase : Int)
    (status : String) : Nat → Nat → String
  | 0, _ => basicAck phase status ++ " (API unavailable)"
  | remaining + 1, i =>
    match gen i with
    | .ok t => if t ≠ "" then pyStrip t else basicAck phase status
    | .exn _ => report_progress_loop gen phase status remaining (i + 1)

/-- `GeminiProvider.report_progress` under the attempt oracle `gen`. -/
def GeminiProvider.report_progress (retryCount : Nat) (gen : Nat → GenOutcome)
    (phase : Int) (status : String) : String :=
  report_progress_loop gen phase status retryCount 0

/-- `GeminiProvider.validate_status`: a single attempt; any failure or
empty response falls through to the fixed fallback text. -/
def GeminiProvider.validate_status (gen : Nat → GenOutcome) : String :=
  match gen 0 with
  | .ok t => if t ≠ "" then pyStrip t
      else "Status validation completed - no critical issues detected (API check skipped)"
  | .exn _ =>
      "Status validation completed - no critical issues detected (API check skipped)"

/-! ### `LeadDevInterface` API mode (`tools/lib/interface.py`) -/

/-- `LeadDevResponse` (the `timestamp` field, an environment effect, is
omitted). -/
structure LeadDevResponse where
  success : Bool
  content : String
  errorCode : Int
  errorMessage : Option String
  contextUsed : List String
deriving Repr, DecidableEq

/-- Document-name extraction shared by `_api_query` and `_stub_query`:
collect `name` from every line of the documents section of the form
`=== name ===`. -/
def extract_context_used (docs : String) : List String :=
  (docs.splitOn "\n").filterMap fun line =>
    if line.startsWith "=== " && line.endsWith " ===" then
      some ((line.drop 4).dropRight 4)
    else none

/-- `LeadDevInterface._api_query`: wraps `GeminiProvider.query`;
a `GeminiConnectionError` is caught by the `GeminiProviderError` handler
and becomes a failure envelope with the prefixed error message. -/
def LeadDevInterface.api_query (retryCount : Nat) (retryDelay : ℚ)
    (gen : Nat → GenOutcome) (ctx : Context) : LeadDevResponse :=
  match (GeminiProvider.query retryCount retryDelay gen).1 with
  | .ok t =>
    { success := true, content := t, errorCode := 0, errorMessage := none
      contextUsed := extract_context_used ctx.documents }
  | .connectionError m =>
    { success := false, content := "", errorCode := 1
      errorMessage := some ("Lead DEV API error: " ++ m), contextUsed := [] }

/-- `LeadDevInterface._api_report_progress`: the provider call returns a
string for every oracle (its retry loop absorbs failures), so the envelope
is always successful. -/
def LeadDevInterface.api_report_progress (retryCount : Nat)
    (gen : Nat → GenOutcome) (phase : Int) (status : String) :
    LeadDevResponse :=
  { success := true
    content := GeminiProvider.report_progress retryCount gen phase status
    errorCode := 0, errorMessage := none, contextUsed := [] }

/-- `LeadDevInterface._api_validate_status`: the provider call absorbs
failures internally, so the envelope is always successful. -/
def LeadDevInterface.api_validate_status (gen : Nat → GenOutcome) :
    LeadDevResponse :=
  { success := true, content := GeminiProvider.validate_status gen
    errorCode := 0, errorMessage := none, contextUsed := [] }

theorem pySliceTo_length_of_le (s : String) (k : Int)
    (h0 : 0 ≤ k) (hk : k ≤ (s.length : Int)) :
    (pySliceTo s k).length = k.toNat := by
  unfold pySliceTo
  rw [if_pos h0]
  simp only [String.length, String.data_take, List.length_take] at hk ⊢
  omega


/-! ### Milestone store (`tools/fetch_next.py`) and milestone-spec lookup
(`tools/lib/context.py`)

Directories are modelled as the list of their filenames in listing/glob
order (plus the file contents where needed). -/

/-- The unchecked-item regex of `check_milestone_complete`, restricted to
a single line: the raw pattern `^` `\s*` `-` `\s*` `[` `\s*` `]`
`\s*(.+)` `$` with literal brackets, matched within one line.  This is
the per-line reading of "a line matching `- [ ] <text>`" that the
specification sentence uses; the source regex is compiled with
`re.MULTILINE`, which moves the anchors to line boundaries but leaves
`\s` matching newline, so the full matcher (`uncheckedScanLines` below)
can additionally match across line breaks.  With greedy backtracking the
group is the rest of the line after its leading whitespace, or the last
whitespace character when only whitespace remains.  (`uncheckedItemCore`
below; `expectChar` consumes one expected literal character.) -/
def expectChar (c : Char) (r : List Char) : Option (List Char) :=
  match r with
  | x :: rest => if x = c then some rest else none
  | [] => none

/-- The within-line part of the trailing `\s*(.+)$`: the rest of the
line after its leading whitespace, or (by backtracking) its last
character when the rest is all whitespace, or no match on an empty
rest. -/
def groupOfLine (r3 : List Char) : Option (List Char) :=
  if (r3.dropWhile isPySpace).isEmpty then (r3.getLast?).map fun c => [c]
  else some (r3.dropWhile isPySpace)

def uncheckedItemCore (l : List Char) : Option (List Char) :=
  (expectChar '-' (l.dropWhile isPySpace)).bind fun r1 =>
  (expectChar '[' (r1.dropWhile isPySpace)).bind fun r2 =>
  (expectChar ']' (r2.dropWhile isPySpace)).bind fun r3 =>
  groupOfLine r3

/-- String wrapper of `uncheckedItemCore`. -/
def uncheckedItem? (line : String) : Option String :=
  (uncheckedItemCore line.data).map fun g => ⟨g⟩

/-- `\s*` crossing line boundaries: from the rest `cs` of the current
line, skip whitespace; an all-whitespace remainder continues (over the
newline, which `\s` matches) into the next line.  Returns the first
non-whitespace suffix of a line together with the lines after it. -/
def consumeWs : List Char → List (List Char) → List Char × List (List Char)
  | cs, [] => (cs.dropWhile isPySpace, [])
  | cs, next :: more =>
    let r := cs.dropWhile isPySpace
    if r.isEmpty then consumeWs next more else (r, next :: more)

/-- The trailing `\s*(.+)$` of the regex, from the rest `cs` of the
current line: greedy `\s*` runs to the first non-whitespace character
(possibly on a later line) and the group is the rest of that line; when
only whitespace remains, backtracking yields the last non-newline
character as a one-character group (no match if there is none).
Returns the group and the lines after the line the group ends on. -/
def matchGroup : List Char → List (List Char) →
    Option (List Char × List (List Char))
  | cs, [] =>
    let w := cs.dropWhile isPySpace
    if w.isEmpty then
      match cs.getLast? with
      | some c => some ([c], [])
      | none => none
    else some (w, [])
  | cs, next :: more =>
    let w := cs.dropWhile isPySpace
    if w.isEmpty then
      match matchGroup next more with
      | some r => some r
      | none =>
        match cs.getLast? with
        | some c => some ([c], next :: more)
        | none => none
    else some (w, next :: more)

/-- One match attempt of the unchecked-item regex starting at the start
of line `l` (the only viable start positions, since `^` under
`re.MULTILINE` holds exactly at line starts): `\s*` `-` `\s*` `[`
`\s*` `]` then `\s*(.+)$`, each `\s*` able to cross line breaks.
Returns the captured group and the lines after the match (every match
ends at a line end, since `.` excludes newline and `$` anchors there). -/
def matchAt (l : List Char) (ls : List (List Char)) :
    Option (List Char × List (List Char)) :=
  let s1 := consumeWs l ls
  (expectChar '-' s1.1).bind fun r1 =>
  let s2 := consumeWs r1 s1.2
  (expectChar '[' s2.1).bind fun r2 =>
  let s3 := consumeWs r2 s2.2
  (expectChar ']' s3.1).bind fun r3 =>
  matchGroup r3 s3.2

/-- `re.findall` of the unchecked-item regex over the document lines:
left-to-right non-overlapping scan, attempting a match at every line
start not consumed by a previous match.  The fuel is the number of
lines; every iteration consumes at least one line
(`matchAt_rest_length_le`), so the fuel-exhausted fallback is
unreachable (`uncheckedScanLines_fuel`). -/
def uncheckedScanLines : Nat → List (List Char) → List (List Char)
  | _, [] => []
  | 0, _ :: _ => []
  | fuel + 1, l :: ls =>
    match matchAt l ls with
    | none => uncheckedScanLines fuel ls
    | some (g, rest) => g :: uncheckedScanLines fuel rest

/-- The lines of a document (split at newline characters). -/
def linesOf (content : String) : List (List Char) :=
  splitLinesAux [] content.data

/-- The matches `re.findall` returns for the unchecked-item regex on the
document. -/
def uncheckedMatches (content : String) : List String :=
  (uncheckedScanLines (linesOf content).length (linesOf content)).map
    fun g => ⟨g⟩

/-- `check_milestone_complete` (`tools/fetch_next.py`): the unchecked
items of the document (the regex matches, stripped), with the
completeness flag. -/
def check_milestone_complete (content : String) : Bool × List String :=
  let incomplete := (uncheckedMatches content).map pyStrip
  (incomplete.length == 0, incomplete)

/-- A line is "hungry" when a match attempt starting at it reaches the
end of the line inside one of the regex's `\s*` runs (so the attempt
would continue, via `\s` matching newline, onto the next line): the
line is all whitespace, or a dangling `-`, `- [`, or `- [ ]` bracket
stub.  On a document without hungry lines every attempt is decided
within its own line and `re.findall` degenerates to the per-line
matcher (`scanLines_of_no_hungry`). -/
def lineHungry (l : List Char) : Bool :=
  if (l.dropWhile isPySpace).isEmpty then true else
  match expectChar '-' (l.dropWhile isPySpace) with
  | none => false
  | some r1 =>
    if (r1.dropWhile isPySpace).isEmpty then true else
    match expectChar '[' (r1.dropWhile isPySpace) with
    | none => false
    | some r2 =>
      if (r2.dropWhile isPySpace).isEmpty then true else
      match expectChar ']' (r2.dropWhile isPySpace) with
      | none => false
      | some r3 => (r3.dropWhile isPySpace).isEmpty

/-- The fnmatch pattern `M*_*.md` used by `find_current_milestone`:
`name = "M" ++ a ++ "_" ++ b ++ ".md"` for some `a`, `b`. -/
def globMilestone (name : String) : Bool :=
  match name.data with
  | 'M' :: rest =>
    listEndsWith rest ".md".data &&
      (rest.take (rest.length - 3)).contains '_'
  | _ => false

/-- Python `int(...)` on a digit string (as captured by `(\d+)`). -/
def digitsToNat (ds : List Char) : Nat :=
  ds.foldl (fun n c => 10 * n + (c.toNat - '0'.toNat)) 0

/-- The anchored regex `M(\d+)_(.+)\.md$` of `find_current_milestone`
(`re.match`, so anchored at the start): `M`, a nonempty digit run
(group 1), `_`, then a nonempty newline-free group followed by `.md` at
the end (`$` also matches just before one trailing newline).  Returns
`int(group(1))`. -/
def parseMilestoneNum (name : String) : Option Nat :=
  match name.data with
  | 'M' :: rest =>
    let ds := rest.takeWhile Char.isDigit
    if ds.isEmpty then none
    else
      match rest.drop ds.length with
      | '_' :: tail =>
        let core := match tail.getLast? with
          | some c => if c = '\n' then tail.dropLast else tail
          | none => tail
        let s := core.take (core.length - 3)
        if 4 ≤ core.length && listEndsWith core ".md".data
            && !s.contains '\n' then
          some (digitsToNat ds)
        else none
      | _ => none
  | _ => none

/-- An entry of the `milestones` list built by `find_current_milestone`:
`(f"M{num}", file, num)`. -/
structure MilestoneEntry where
  id : String
  path : String
  num : Nat
deriving Repr, DecidableEq

/-- The `milestones` list of `find_current_milestone`: glob the directory
with `M*_*.md`, parse each name with the regex, keep the parses. -/
def milestoneEntries (names : List String) : List MilestoneEntry :=
  (names.filter globMilestone).filterMap fun nm =>
    (parseMilestoneNum nm).map fun n => ⟨"M" ++ Nat.repr n, nm, n⟩

/-- `milestones.sort(key=lambda x: x[2], reverse=True); milestones[0]`:
Python's sort is stable, so the head of the reverse-sorted list is the
earliest entry with the maximal number; `[]` gives the `return None`
path. -/
def pickHighest : List MilestoneEntry → Option MilestoneEntry
  | [] => none
  | e :: es =>
    some (es.foldl (fun best x => if best.num < x.num then x else best) e)

/-- `find_current_milestone` (`tools/fetch_next.py` and, identically,
`tools/handoff.py`) over the filenames of the milestones directory. -/
def find_current_milestone (names : List String) : Option MilestoneEntry :=
  if (names.filter globMilestone).isEmpty then none
  else pickHighest (milestoneEntries names)

/-- The `patterns` list of `ContextAggregator._find_milestone_spec`
(`str.lstrip("M")` strips every leading `M`). -/
def milestonePatterns (milestone : String) : List String :=
  [milestone ++ ".md",
   String.mk (milestone.data.map fun c => if c = '_' then ' ' else c)
     ++ ".md",
   match milestone.data with
   | 'M' :: _ =>
     "M" ++ String.mk (milestone.data.dropWhile (· = 'M')) ++ ".md"
   | _ => "M" ++ milestone ++ ".md"]

/-- `ContextAggregator._find_milestone_spec`: `none` when the milestones
directory does not exist; otherwise the first `*.md` file of the
directory (in glob order `files`) whose name case-insensitively contains
the milestone token, and only when there is none, the first entry of
`patterns` that names an existing file.  (In the source the
contains-search loop runs before the patterns loop.) -/
def find_milestone_spec (dirExists : Bool) (files : List String)
    (milestone : String) : Option String :=
  if !dirExists then none
  else
    match files.find? (fun f => pyInStr (pyLower milestone) (pyLower f)) with
    | some f => some f
    | none => (milestonePatterns milestone).find? (fun p => files.contains p)


/-! ### `Config` (`tools/lib/config.py`) and interface mode selection
(`tools/lib/interface.py`)

The configuration is the nested dict `self._config`, modelled as an
association list preserving Python dict insertion order.  The YAML file
enters the model as the already-parsed `bridge` and `project` sections
(empty list = absent/falsy section); the environment as an oracle
`String → Option String`.  Python exceptions during loading
(`KeyError`/`TypeError` on the section assignment, `ValueError` from
`int(...)`) make construction return `none`. -/

/-- A YAML/config value. -/
inductive CVal where
  | str (s : String)
  | int (n : Int)
  | bool (b : Bool)
  | dict (entries : List (String × CVal))

/-- Python dict lookup on the ordered entry list. -/
def dictLookup (es : List (String × CVal)) (k : String) : Option CVal :=
  match es with
  | [] => none
  | (k', v) :: rest => if k' = k then some v else dictLookup rest k

/-- Python dict assignment `d[k] = v`: replaces in place, appends when
new. -/
def dictSet (es : List (String × CVal)) (k : String) (v : CVal) :
    List (String × CVal) :=
  match es with
  | [] => [(k, v)]
  | (k', v') :: rest =>
    if k' = k then (k', v) :: rest else (k', v') :: dictSet rest k v

/-- Python `d.update(new)`. -/
def dictUpdate (d new : List (String × CVal)) : List (String × CVal) :=
  new.foldl (fun acc kv => dictSet acc kv.1 kv.2) d

/-- `Config.DEFAULTS`. -/
def DEFAULTS : List (String × CVal) :=
  [("lead_dev", .dict [("interface", .str "gemini-cli"),
      ("timeout", .int 30), ("retry_count", .int 3),
      ("retry_delay", .int 5)]),
   ("context", .dict [("max_tokens", .int 8000),
      ("include_architecture", .bool true),
      ("include_roadmap", .bool false),
      ("truncation_strategy", .str "recent_first")]),
   ("output", .dict [("default_format", .str "text"),
      ("include_timestamps", .bool true), ("log_queries", .bool true),
      ("log_file", .str "tools/logs/bridge.log")]),
   ("project", .dict [("docs_path", .str "docs/"),
      ("milestones_path", .str "docs/01_milestones/"),
      ("architecture_file", .str "docs/00_global/ARCHITECTURE.md"),
      ("roadmap_file", .str "docs/00_global/ROADMAP.md"),
      ("workflow_file", .str "docs/00_global/WORKFLOW.md")])]

/-- `Config._merge_config`: per top-level key, a shallow dict update when
both sides are dicts, plain overwrite otherwise. -/
def merge_config (cfg new : List (String × CVal)) : List (String × CVal) :=
  new.foldl (fun acc kv =>
    match dictLookup acc kv.1, kv.2 with
    | some (.dict d), .dict d' => dictSet acc kv.1 (.dict (dictUpdate d d'))
    | _, _ => dictSet acc kv.1 kv.2) cfg

/-- `Config._load_yaml_config` after parsing: merge the `bridge` section
(if truthy) at top level, then the `project` section (if truthy) wrapped
under key "project". -/
def load_yaml (cfg : List (String × CVal))
    (bridge project : List (String × CVal)) : List (String × CVal) :=
  let cfg1 := if bridge.isEmpty then cfg else merge_config cfg bridge
  if project.isEmpty then cfg1
  else merge_config cfg1 [("project", .dict project)]

/-- Python `int(s)` for an optionally signed decimal literal (the forms
exercised here; `none` models the `ValueError` on anything else). -/
def pyInt? (s : String) : Option Int :=
  match s.data with
  | '-' :: ds =>
    if !ds.isEmpty && ds.all Char.isDigit then some (-(digitsToNat ds : Int))
    else none
  | '+' :: ds =>
    if !ds.isEmpty && ds.all Char.isDigit then some ((digitsToNat ds : Int))
    else none
  | ds =>
    if !ds.isEmpty && ds.all Char.isDigit then some ((digitsToNat ds : Int))
    else none

/-- `self._config[section][key] = value`: `none` models the
`KeyError`/`TypeError` raised when the section is missing or not a
dict. -/
def setSectionKey (cfg : List (String × CVal)) (sect key : String)
    (v : CVal) : Option (List (String × CVal)) :=
  match dictLookup cfg sect with
  | some (.dict d) => some (dictSet cfg sect (.dict (dictSet d key v)))
  | _ => none

/-- One entry of `Config._load_env_variables`: skip an unset variable;
coerce with `int(...)` for the `max_tokens` key (`none` models the
`ValueError` on an unparsable value); then assign. -/
def applyEnvVar (cfg : List (String × CVal)) (env : String → Option String)
    (var sect key : String) : Option (List (String × CVal)) :=
  match env var with
  | none => some cfg
  | some v =>
    if key = "max_tokens" then
      match pyInt? v with
      | some n => setSectionKey cfg sect key (.int n)
      | none => none
    else setSectionKey cfg sect key (.str v)

/-- `Config._load_env_variables`: the `ENV_MAPPINGS` entries in dict
order (`HMAS_CONFIG_PATH` maps to `None` and is skipped). -/
def load_env (cfg : List (String × CVal)) (env : String → Option String) :
    Option (List (String × CVal)) := do
  let cfg1 ← applyEnvVar cfg env "HMAS_LEAD_INTERFACE" "lead_dev"
    "interface"
  let cfg2 ← applyEnvVar cfg1 env "HMAS_CONTEXT_MAX_TOKENS" "context"
    "max_tokens"
  applyEnvVar cfg2 env "HMAS_LOG_LEVEL" "output" "log_level"

/-- `Config.__init__`: defaults, then the YAML sections, then the
environment overrides. -/
def Config.init (bridge project : List (String × CVal))
    (env : String → Option String) : Option (List (String × CVal)) :=
  load_env (load_yaml DEFAULTS bridge project) env

/-- Walk of `Config.get` along a key path (the configured `default` is
`none` here, as at the call sites the claims concern). -/
def configGetPath : CVal → List String → Option CVal
  | v, [] => some v
  | .dict es, k :: rest =>
    match dictLookup es k with
    | some v => configGetPath v rest
    | none => none
  | _, _ :: _ => none

/-- `Config.get(*keys)` with default `None`. -/
def Config.get (cfg : List (String × CVal)) (keys : List String) :
    Option CVal :=
  configGetPath (.dict cfg) keys

/-- `InterfaceMode` (`tools/lib/interface.py`). -/
inductive InterfaceMode where
  | interactive
  | stub
  | api
deriving Repr, DecidableEq

/-- `InterfaceMode(value)`: the enum constructor; `none` models the
`ValueError` on any other value. -/
def parseInterfaceMode (s : String) : Option InterfaceMode :=
  if s = "interactive" then some .interactive
  else if s = "stub" then some .stub
  else if s = "api" then some .api
  else none

/-- Python truthiness of a config value. -/
def truthyCVal : CVal → Bool
  | .str s => s ≠ ""
  | .int n => n ≠ 0
  | .bool b => b
  | .dict es => !es.isEmpty

/-- The config branch of mode selection in `LeadDevInterface.__init__`:
`config_mode = self.config.get("bridge.lead_dev", "mode")`, then
`InterfaceMode(config_mode)` when truthy, else the INTERACTIVE default. -/
def selectModeFromConfig (cfg : List (String × CVal)) :
    Option InterfaceMode :=
  match Config.get cfg ["bridge.lead_dev", "mode"] with
  | some v =>
    if truthyCVal v then
      match v with
      | .str s => parseInterfaceMode s
      | _ => none
    else some .interactive
  | none => some .interactive

/-- Mode selection of `LeadDevInterface.__init__`: a truthy explicit
argument wins, otherwise the config branch. -/
def selectMode (modeArg : Option String) (cfg : List (String × CVal)) :
    Option InterfaceMode :=
  match modeArg with
  | some m => if m ≠ "" then parseInterfaceMode m else selectModeFromConfig cfg
  | none => selectModeFromConfig cfg


/-- The config-file content of the C6 failing input: a YAML file whose
`bridge:` section sets `lead_dev.mode` to `"stub"`. -/
def c6Bridge : List (String × CVal) :=
  [("lead_dev", CVal.dict [("mode", CVal.str "stub")])]

/-- The configuration built from `c6Bridge` with no environment
overrides. -/
def cfgC6 : List (String × CVal) :=
  (Config.init c6Bridge [] (fun _ => none)).getD []

/-- Environment oracle setting all three allow-listed override
variables. -/
def envW : String → Option String := fun v =>
  if v = "HMAS_LEAD_INTERFACE" then some "gemini-api"
  else if v = "HMAS_CONTEXT_MAX_TOKENS" then some "123"
  else if v = "HMAS_LOG_LEVEL" then some "debug"
  else none

/-- The configuration built from empty YAML sections under `envW`. -/
def cfgW : List (String × CVal) :=
  (Config.init [] [] envW).getD []


/-! ### `archive_milestone` (`tools/fetch_next.py`)

The milestones and history directories are association lists from
filename to content; `date` is the `%Y%m%d` timestamp (an environment
input). -/

/-- The filenames of a directory. -/
def fsNames (fs : List (String × String)) : List String := fs.map Prod.fst

/-- `path.exists()` within a directory. -/
def fsHasName (fs : List (String × String)) (name : String) : Bool :=
  (fsNames fs).contains name

/-- `shutil.copy2` destination write: overwrite an existing file,
create otherwise. -/
def fsWrite (fs : List (String × String)) (name content : String) :
    List (String × String) :=
  if fsHasName fs name then
    fs.map (fun e => if e.1 = name then (name, content) else e)
  else fs ++ [(name, content)]

/-- The candidate archive names of `archive_milestone`:
`f"{stem}_{timestamp}.md"` first, then `f"{stem}_{timestamp}_{counter}.md"`
for `counter = 1, 2, …`. -/
def candName (stem date : String) : Nat → String
  | 0 => stem ++ "_" ++ date ++ ".md"
  | n + 1 => stem ++ "_" ++ date ++ "_" ++ Nat.repr (n + 1) ++ ".md"

/-- The `while archive_path.exists()` collision loop: try candidate `k`,
advance to `k + 1` while taken.  The loop terminates because only
finitely many names exist; the fuel `hist.length + 1` covers more
candidates than the directory has files, so the fuel-exhausted fallback
(which returns the current candidate) is unreachable. -/
def findArchiveNameAux (hist : List (String × String)) (stem date : String) :
    Nat → Nat → String
  | 0, k => candName stem date k
  | fuel + 1, k =>
    if fsHasName hist (candName stem date k) then
      findArchiveNameAux hist stem date fuel (k + 1)
    else candName stem date k

/-- The archive filename chosen by `archive_milestone`. -/
def findArchiveName (hist : List (String × String)) (stem date : String) :
    String :=
  findArchiveNameAux hist stem date (hist.length + 1) 0

/-- The two directories `archive_milestone` touches. -/
structure ArchiveState where
  milestonesDir : List (String × String)
  historyDir : List (String × String)

/-- The content of the source milestone file `<stem>.md`. -/
def msContent (st : ArchiveState) (stem : String) : String :=
  ((st.milestonesDir.find? (fun e => e.1 = stem ++ ".md")).map Prod.snd).getD
    ""

/-- `archive_milestone`: choose the first free candidate name and
`shutil.copy2` the source file to it (a copy — the milestones directory
is not written).  Returns the new state and the archive filename. -/
def archive_milestone (st : ArchiveState) (stem date : String) :
    ArchiveState × String :=
  let name := findArchiveName st.historyDir stem date
  ({ st with
      historyDir := fsWrite st.historyDir name (msContent st stem) }, name)

/-- Unfolding equation for `Context.totalChars` on a literal record. -/
theorem Context.totalChars_mk (q p d : String) (g : Option String) :
    (Context.mk q p d g).totalChars =
      q.length + p.length + d.length + (g.map String.length).getD 0 := rfl


/-- **C1, counterexample.**  The claimed size invariant
`len(documents)+len(query)+len(phase)+len(git_status) ≤ max_tokens × 4`
fails for a call to `aggregate` with `max_tokens = 1` and a 10-character
query: the budget is 4 characters, but query (10) + default phase info
`"Phase: Unknown"` (14) already exceed it, so `_apply_size_limits` replaces
`documents` with the 37-character omission marker and returns a context of
61 characters total. -/
theorem C1_counterexample :
    ¬ ((aggregate 1 "0123456789" none none "" none).totalChars ≤ 1 * 4) := by
  decide

/-- **C1, amended.**  The size invariant does hold for every call to
`aggregate` in which the reserved sections fit with the 50-character
truncation reserve: whenever
`len(query) + len(phase) + len(git_status) + 50 ≤ max_tokens × 4`, the
returned context satisfies
`len(documents)+len(query)+len(phase)+len(git_status) ≤ max_tokens × 4`
(an absent `git_status` counts as length 0). -/
theorem C1_amended (maxTokens : Int) (q : String)
    (phase milestone : Option String) (docsText : String)
    (gitText : Option String)
    (h : (q.length : Int) + ((format_phase_info phase milestone).length : Int)
        + gitLen gitText + 50 ≤ maxTokens * 4) :
    ((aggregate maxTokens q phase milestone docsText gitText).totalChars : Int)
      ≤ maxTokens * 4 := by
  have hm : truncationMarker.length = 36 := by decide
  set P := format_phase_info phase milestone with hP
  cases gitText with
  | none =>
    simp only [gitLen, Option.map_none', Option.getD_none,
      Nat.cast_zero] at h
    simp only [aggregate, apply_size_limits, CHARS_PER_TOKEN, ← hP]
    split
    · next hle =>
      simp only [Context.totalChars_mk, Option.map_none', Option.getD_none,
        Nat.cast_zero] at hle ⊢
      omega
    · next hgt =>
      simp only [Context.totalChars_mk, Option.map_none', Option.getD_none,
        Nat.cast_zero] at hgt
      split
      · next hpos =>
        simp only [Option.map_none', Option.getD_none, Nat.cast_zero] at hpos
        split
        · next hdocs =>
          simp only [Option.map_none', Option.getD_none, Nat.cast_zero] at hdocs
          simp only [Context.totalChars_mk, Option.map_none', Option.getD_none,
            Nat.cast_zero, String.length_append, hm]
          rw [pySliceTo_length_of_le]
          · omega
          · omega
          · omega
        · next hdocs =>
          simp only [Option.map_none', Option.getD_none, Nat.cast_zero] at hdocs
          simp only [Context.totalChars_mk, Option.map_none', Option.getD_none,
            Nat.cast_zero]
          omega
      · next hpos =>
        simp only [Option.map_none', Option.getD_none, Nat.cast_zero] at hpos
        simp only [Context.totalChars_mk, Option.map_none', Option.getD_none,
          Nat.cast_zero]
        omega
  | some g =>
    simp only [gitLen, Option.map_some', Option.getD_some] at h
    simp only [aggregate, apply_size_limits, CHARS_PER_TOKEN, ← hP]
    split
    · next hle =>
      simp only [Context.totalChars_mk, Option.map_some', Option.getD_some]
        at hle ⊢
      omega
    · next hgt =>
      simp only [Context.totalChars_mk, Option.map_some', Option.getD_some]
        at hgt
      split
      · next hpos =>
        simp only [Option.map_some', Option.getD_some] at hpos
        split
        · next hdocs =>
          simp only [Option.map_some', Option.getD_some] at hdocs
          simp only [Context.totalChars_mk, Option.map_some', Option.getD_some,
            String.length_append, hm]
          rw [pySliceTo_length_of_le]
          · omega
          · omega
          · omega
        · next hdocs =>
          simp only [Option.map_some', Option.getD_some] at hdocs
          simp only [Context.totalChars_mk, Option.map_some', Option.getD_some]
          omega
      · next hpos =>
        simp only [Option.map_some', Option.getD_some] at hpos
        simp only [Context.totalChars_mk, Option.map_some', Option.getD_some]
        omega

/-- **C1, witness for the amended theorem** at `max_tokens = 100`,
query `"hi"`, no phase/milestone, a 500-character document section. -/
theorem C1_amended_witness :
    ((2 : Int) + 14 + 0 + 50 ≤ 100 * 4) ∧
    ((aggregate 100 "hi" none none
        (String.mk (List.replicate 500 'd')) none).totalChars : Int)
      ≤ 100 * 4 :=
  ⟨by decide,
   C1_amended 100 "hi" none none (String.mk (List.replicate 500 'd')) none
     (by decide)⟩


/-- **C2, counterexample.**  The claim that `aggregate` "truncates the
git_status section next" when the context is still over budget after the
documents truncation is false: `_apply_size_limits` never touches
`git_status`.  With `max_tokens = 1` (4-character budget), an empty query,
default phase info (14 chars) and a 40-character git status, the documents
section is replaced by the omission marker, yet the returned `git_status`
is the untouched 40-character input string and the context total (91
chars) still exceeds the budget — no truncation marker was appended to it. -/
theorem C2_counterexample :
    (aggregate 1 "" none none ""
        (some "0123456789012345678901234567890123456789")).gitStatus
      = some "0123456789012345678901234567890123456789" ∧
    ¬ ((aggregate 1 "" none none ""
        (some "0123456789012345678901234567890123456789")).totalChars ≤ 1 * 4)
    := by
  constructor
  · decide
  · decide

/-- **C2, amended.**  When the aggregated context exceeds
`max_tokens × 4` characters, `aggregate` truncates only the `documents`
section, returning `query`, `phase` and `git_status` verbatim as supplied
(`git_status` is never truncated, even when the context is still over
budget): if positive budget remains after reserving exact space for the
other sections, the documents are cut to `budget − 50` characters with the
literal truncation marker appended, and if no budget remains they are
replaced by the omission marker. -/
theorem C2_amended (maxTokens : Int) (q : String)
    (phase milestone : Option String) (docsText : String)
    (gitText : Option String) :
    (aggregate maxTokens q phase milestone docsText gitText).query = q ∧
    (aggregate maxTokens q phase milestone docsText gitText).phase
      = format_phase_info phase milestone ∧
    (aggregate maxTokens q phase milestone docsText gitText).gitStatus
      = gitText ∧
    (maxTokens * 4 <
        ((q.length + (format_phase_info phase milestone).length
          + docsText.length : Nat) : Int) + gitLen gitText →
      0 < availableForDocs maxTokens q phase milestone gitText →
      availableForDocs maxTokens q phase milestone gitText
          < (docsText.length : Int) →
      (aggregate maxTokens q phase milestone docsText gitText).documents
        = pySliceTo docsText
            (availableForDocs maxTokens q phase milestone gitText - 50)
          ++ truncationMarker) ∧
    (maxTokens * 4 <
        ((q.length + (format_phase_info phase milestone).length
          + docsText.length : Nat) : Int) + gitLen gitText →
      availableForDocs maxTokens q phase milestone gitText ≤ 0 →
      (aggregate maxTokens q phase milestone docsText gitText).documents
        = omissionMarker) := by
  set P := format_phase_info phase milestone with hP
  have hgl : gitLen gitText = ((gitText.map String.length).getD 0 : Nat) := rfl
  have havail : availableForDocs maxTokens q phase milestone gitText
      = maxTokens * CHARS_PER_TOKEN - ((q.length : Int) + (P.length : Int))
        - gitLen gitText := rfl
  simp only [aggregate, apply_size_limits, CHARS_PER_TOKEN, ← hP] at *
  refine ⟨?_, ?_, ?_, ?_, ?_⟩ <;>
    [skip; skip; skip;
     (intro htot hpos hdocs); (intro htot hneg)] <;>
  · split
    · next hle =>
      simp only [Context.totalChars_mk] at hle
      first
        | rfl
        | (exfalso; rw [havail, hgl] at *; push_cast at *; omega)
    · next hgt =>
      split
      · next hpos2 =>
        split
        · next hdocs2 => first
            | rfl
            | (rw [havail, hgl] at *; push_cast at *; omega)
        · next hdocs2 => first
            | rfl
            | (exfalso; simp only [Context.totalChars_mk] at hgt;
               rw [havail, hgl] at *; push_cast at *; omega)
      · next hpos2 => first
          | rfl
          | (exfalso; rw [havail, hgl] at *; push_cast at *; omega)

/-- **C2, witness for the amended theorem**: a 100-character document
section against a 4-character budget with no git status; the omission
branch fires and the other sections are returned verbatim. -/
theorem C2_amended_witness :
    (aggregate 1 "q" none none (String.mk (List.replicate 100 'd'))
        none).gitStatus = none ∧
    (aggregate 1 "q" none none (String.mk (List.replicate 100 'd'))
        none).documents = omissionMarker :=
  ⟨(C2_amended 1 "q" none none (String.mk (List.replicate 100 'd'))
      none).2.2.1,
   (C2_amended 1 "q" none none (String.mk (List.replicate 100 'd'))
      none).2.2.2.2 (by decide) (by decide)⟩


/-- All-failing oracle: `query_loop` exhausts the remaining attempts,
sleeping `retryDelay × attemptIndex` (1-based) between consecutive
attempts, and ends in a `GeminiConnectionError` carrying the message of
the last attempt. -/
theorem query_loop_all_fail (gen : Nat → GenOutcome) (retryDelay : ℚ)
    (retryCount : Nat) (err : Nat → String) :
    ∀ remaining i lastError, remaining + i = retryCount → 0 < remaining →
    (∀ j, i ≤ j → j < retryCount → gen j = .exn (err j)) →
    query_loop gen retryDelay retryCount remaining i lastError =
      (.connectionError ("Failed to get response after " ++ Nat.repr retryCount
          ++ " attempts: " ++ err (retryCount - 1)),
       (List.range' (i + 1) (remaining - 1)).map (fun k => retryDelay * k),
       remaining) := by
  intro remaining
  induction remaining with
  | zero => intro i lastError _ h0 _; omega
  | succ r ih =>
    intro i lastError hsum hpos hfail
    have hi : gen i = .exn (err i) := hfail i (Nat.le_refl i) (by omega)
    cases r with
    | zero =>
      have hieq : i = retryCount - 1 := by omega
      simp only [query_loop, hi]
      subst hieq
      simp [pyStrOfOpt]
    | succ r' =>
      have hrec := ih (i + 1) (some (err i)) (by omega) (by omega)
        (fun j hj hj' => hfail j (by omega) hj')
      simp only [query_loop, hi] at hrec ⊢
      rw [hrec]
      simp only [Nat.add_sub_cancel, List.range'_succ, List.map_cons,
        Prod.mk.injEq]
      refine ⟨trivial, ?_, trivial⟩
      rw [if_pos (by omega : (1:Nat) ≤ r' + 1)]
      simp only [List.cons_append, List.nil_append]
      congr 1
      push_cast
      ring


/-- All-failing oracle: the `report_progress` retry loop falls through to
the "(API unavailable)" acknowledgment. -/
theorem report_progress_loop_all_fail (gen : Nat → GenOutcome) (phase : Int)
    (status : String) (err : Nat → String) (retryCount : Nat) :
    ∀ remaining i, remaining + i = retryCount →
    (∀ j, j < retryCount → gen j = .exn (err j)) →
    report_progress_loop gen phase status remaining i
      = basicAck phase status ++ " (API unavailable)" := by
  intro remaining
  induction remaining with
  | zero => intro i _ _; rfl
  | succ r ih =>
    intro i hsum hfail
    have hi : gen i = .exn (err i) := hfail i (by omega)
    simp only [report_progress_loop, hi]
    exact ih (i + 1) (by omega) hfail

/-- **C3.**  If the underlying `generate_content` call raises on every
attempt, `GeminiProvider.query` makes exactly `retry_count` attempts, with
sleeps `retry_delay × attemptIndex` (for the 1-based index
`attemptIndex = 1, …, retry_count − 1`) between consecutive attempts, and
only then raises a `GeminiConnectionError` whose message carries the last
underlying error.  The three components of the conclusion are the raised
error, the recorded sleep durations, and the number of attempts made. -/
theorem C3_query_exhausts_retries (retryCount : Nat) (retryDelay : ℚ)
    (gen : Nat → GenOutcome) (err : Nat → String)
    (hrc : 0 < retryCount)
    (hfail : ∀ i, i < retryCount → gen i = .exn (err i)) :
    GeminiProvider.query retryCount retryDelay gen =
      (.connectionError ("Failed to get response after " ++ Nat.repr retryCount
          ++ " attempts: " ++ err (retryCount - 1)),
       (List.range' 1 (retryCount - 1)).map (fun k => retryDelay * k),
       retryCount) := by
  unfold GeminiProvider.query
  exact query_loop_all_fail gen retryDelay retryCount err retryCount 0 none
    (by omega) hrc (fun j _ hj => hfail j hj)

/-- **C3, witness**: `retry_count = 3`, `retry_delay = 2`, every attempt
raising "boom": three attempts, sleeps `[2, 4]`, then the connection
error. -/
theorem C3_witness :
    GeminiProvider.query 3 2 (fun _ => .exn "boom") =
      (.connectionError ("Failed to get response after " ++ Nat.repr 3
          ++ " attempts: " ++ "boom"),
       (List.range' 1 2).map (fun k => (2 : ℚ) * k), 3) :=
  C3_query_exhausts_retries 3 2 (fun _ => .exn "boom") (fun _ => "boom")
    (by decide) (fun i _ => rfl)

/-- **C4.**  Under a provider whose underlying generate call fails on
every attempt, API-mode `report_progress` returns `success = True` with
the degraded acknowledgment
`"Acknowledged: Phase <phase> marked as \x27<status>\x27 (API unavailable)"`
(`basicAck` is exactly `"Acknowledged: Phase " ++ str(phase) ++
" marked as \x27" ++ status ++ "\x27"`), API-mode `validate_status` also
returns `success = True`, and API-mode `query` is the one operation
returning a hard failure: `success = False` with the connection error
message. -/
theorem C4_degradation_asymmetry (retryCount : Nat) (retryDelay : ℚ)
    (gen : Nat → GenOutcome) (err : Nat → String) (phase : Int)
    (status : String) (ctx : Context)
    (hrc : 0 < retryCount)
    (hfail : ∀ i, i < retryCount → gen i = .exn (err i)) :
    (LeadDevInterface.api_report_progress retryCount gen phase
        status).success = true ∧
    (LeadDevInterface.api_report_progress retryCount gen phase
        status).content = basicAck phase status ++ " (API unavailable)" ∧
    (LeadDevInterface.api_validate_status gen).success = true ∧
    (LeadDevInterface.api_query retryCount retryDelay gen ctx).success
      = false ∧
    (LeadDevInterface.api_query retryCount retryDelay gen ctx).errorMessage
      = some ("Lead DEV API error: "
          ++ ("Failed to get response after " ++ Nat.repr retryCount
            ++ " attempts: " ++ err (retryCount - 1))) := by
  have hq := query_loop_all_fail gen retryDelay retryCount err retryCount 0
    none (by omega) hrc (fun j _ hj => hfail j hj)
  have hr := report_progress_loop_all_fail gen phase status err retryCount
    retryCount 0 (by omega) hfail
  refine ⟨rfl, ?_, rfl, ?_, ?_⟩
  · exact hr
  · simp only [LeadDevInterface.api_query, GeminiProvider.query, hq]
  · simp only [LeadDevInterface.api_query, GeminiProvider.query, hq]

/-- **C4, witness** at `retry_count = 1`, an always-failing provider,
phase 3, status "blocked". -/
theorem C4_witness :
    (LeadDevInterface.api_report_progress 1 (fun _ => .exn "down") 3
        "blocked").success = true ∧
    (LeadDevInterface.api_report_progress 1 (fun _ => .exn "down") 3
        "blocked").content = basicAck 3 "blocked" ++ " (API unavailable)" ∧
    (LeadDevInterface.api_validate_status (fun _ => .exn "down")).success
      = true ∧
    (LeadDevInterface.api_query 1 0 (fun _ => .exn "down")
        ⟨"", "", "", none⟩).success = false ∧
    (LeadDevInterface.api_query 1 0 (fun _ => .exn "down")
        ⟨"", "", "", none⟩).errorMessage
      = some ("Lead DEV API error: "
          ++ ("Failed to get response after " ++ Nat.repr 1
            ++ " attempts: " ++ "down")) :=
  C4_degradation_asymmetry 1 0 (fun _ => .exn "down") (fun _ => "down") 3
    "blocked" ⟨"", "", "", none⟩ (by decide) (fun i _ => rfl)


/-- The result of the `pickHighest` fold is the initial entry or a list
member. -/
theorem pick_foldl_mem (es : List MilestoneEntry) (e : MilestoneEntry) :
    es.foldl (fun best x => if best.num < x.num then x else best) e = e ∨
      es.foldl (fun best x => if best.num < x.num then x else best) e ∈ es := by
  induction es generalizing e with
  | nil => exact Or.inl rfl
  | cons a as ih =>
    simp only [List.foldl_cons]
    rcases ih (if e.num < a.num then a else e) with h | h
    · rw [h]
      split
      · exact Or.inr (List.mem_cons_self a as)
      · exact Or.inl rfl
    · exact Or.inr (List.mem_cons_of_mem a h)

/-- The `pickHighest` fold result dominates the initial entry. -/
theorem pick_foldl_ge_init (es : List MilestoneEntry) (e : MilestoneEntry) :
    e.num ≤ (es.foldl (fun best x => if best.num < x.num then x else best)
      e).num := by
  induction es generalizing e with
  | nil => exact Nat.le_refl _
  | cons a as ih =>
    simp only [List.foldl_cons]
    refine Nat.le_trans ?_ (ih (if e.num < a.num then a else e))
    split
    · next hlt => exact Nat.le_of_lt hlt
    · exact Nat.le_refl _

/-- The `pickHighest` fold result dominates every list member. -/
theorem pick_foldl_ge_mem (es : List MilestoneEntry) (e : MilestoneEntry) :
    ∀ x ∈ es, x.num ≤ (es.foldl
      (fun best x => if best.num < x.num then x else best) e).num := by
  induction es generalizing e with
  | nil => intro x hx; cases hx
  | cons a as ih =>
    intro x hx
    simp only [List.foldl_cons]
    rcases List.mem_cons.mp hx with rfl | hx
    · refine Nat.le_trans ?_ (pick_foldl_ge_init as _)
      split
      · exact Nat.le_refl _
      · next hnlt => exact Nat.le_of_not_lt hnlt
    · exact ih _ x hx

/-- Every entry built by `milestoneEntries` has id `"M" ++ str(num)`. -/
theorem milestoneEntries_id (names : List String) (e : MilestoneEntry)
    (he : e ∈ milestoneEntries names) : e.id = "M" ++ Nat.repr e.num := by
  unfold milestoneEntries at he
  rcases List.mem_filterMap.mp he with ⟨nm, _, hp⟩
  rcases Option.map_eq_some'.mp hp with ⟨n, _, rfl⟩
  rfl



/-- **C9.**  `find_current_milestone` returns, among the directory
filenames matching `M<digits>_<slug>.md` (glob `M*_*.md` plus the anchored
regex), the entry with the highest parsed number, with id `"M<number>"`
built from that parsed number; it returns `none` exactly when no filename
matches.  Concretely, `"M12_Auth.md"` yields id `"M12"` and number `12`,
and over `M1_*/M3_*/M2_*` files the `M3` entry is returned. -/
theorem C9_find_current_highest :
    (∀ (names : List String) (e : MilestoneEntry),
      find_current_milestone names = some e →
        e.id = "M" ++ Nat.repr e.num ∧ e ∈ milestoneEntries names ∧
        ∀ e' ∈ milestoneEntries names, e'.num ≤ e.num) ∧
    (∀ names : List String,
      find_current_milestone names = none ↔ milestoneEntries names = []) ∧
    find_current_milestone ["M12_Auth.md"]
      = some ⟨"M12", "M12_Auth.md", 12⟩ ∧
    find_current_milestone ["M1_a.md", "M3_b.md", "M2_c.md"]
      = some ⟨"M3", "M3_b.md", 3⟩ := by
  refine ⟨?_, ?_, by decide, by decide⟩
  · intro names e h
    unfold find_current_milestone at h
    split at h
    · exact absurd h (by simp)
    · cases hent : milestoneEntries names with
      | nil => rw [hent] at h; exact absurd h (by simp [pickHighest])
      | cons e0 es =>
        rw [hent] at h
        simp only [pickHighest, Option.some.injEq] at h
        subst h
        have hmem : (es.foldl
            (fun best x => if best.num < x.num then x else best) e0)
              ∈ e0 :: es := by
          rcases pick_foldl_mem es e0 with h | h
          · rw [h]; exact List.mem_cons_self _ _
          · exact List.mem_cons_of_mem _ h
        refine ⟨?_, hmem, ?_⟩
        · refine milestoneEntries_id names _ ?_
          rw [hent]; exact hmem
        · intro e' he'
          rcases List.mem_cons.mp he' with rfl | he'
          · exact pick_foldl_ge_init es e'
          · exact pick_foldl_ge_mem es e0 e' he'
  · intro names
    unfold find_current_milestone
    split
    · next hempty =>
      simp only [true_iff]
      unfold milestoneEntries
      rw [List.isEmpty_iff.mp hempty]
      rfl
    · cases hent : milestoneEntries names with
      | nil => simp [pickHighest]
      | cons e0 es => simp [pickHighest]

/-- **C9, witness**: applying the highest-number property over
`M1_a.md / M3_b.md / M2_c.md`. -/
theorem C9_witness :
    (⟨"M3", "M3_b.md", 3⟩ : MilestoneEntry).id = "M" ++ Nat.repr
      (⟨"M3", "M3_b.md", 3⟩ : MilestoneEntry).num ∧
    (⟨"M3", "M3_b.md", 3⟩ : MilestoneEntry)
      ∈ milestoneEntries ["M1_a.md", "M3_b.md", "M2_c.md"] ∧
    ∀ e' ∈ milestoneEntries ["M1_a.md", "M3_b.md", "M2_c.md"],
      e'.num ≤ (⟨"M3", "M3_b.md", 3⟩ : MilestoneEntry).num :=
  C9_find_current_highest.1 ["M1_a.md", "M3_b.md", "M2_c.md"]
    ⟨"M3", "M3_b.md", 3⟩ (by decide)

/-- `consumeWs` stays within the current line when its rest has a
non-whitespace character. -/
theorem consumeWs_of_ne_nil (cs : List Char) (ls : List (List Char))
    (h : ¬ (cs.dropWhile isPySpace).isEmpty) :
    consumeWs cs ls = (cs.dropWhile isPySpace, ls) := by
  cases ls with
  | nil => rfl
  | cons next more =>
    unfold consumeWs
    rw [if_neg h]

/-- `matchGroup` stays within the current line when its rest has a
non-whitespace character. -/
theorem matchGroup_of_ne_nil (cs : List Char) (ls : List (List Char))
    (h : ¬ (cs.dropWhile isPySpace).isEmpty) :
    matchGroup cs ls = some (cs.dropWhile isPySpace, ls) := by
  cases ls with
  | nil =>
    unfold matchGroup
    rw [if_neg h]
  | cons next more =>
    unfold matchGroup
    rw [if_neg h]

/-- On a non-hungry line the match attempt is decided within the line
and agrees with the per-line matcher. -/
theorem matchAt_of_not_hungry (l : List Char) (ls : List (List Char))
    (h : lineHungry l = false) :
    matchAt l ls = (uncheckedItemCore l).map (fun g => (g, ls)) := by
  unfold lineHungry at h
  unfold matchAt uncheckedItemCore
  split at h
  · cases h
  · next ht1 =>
    rw [consumeWs_of_ne_nil l ls ht1]
    cases he1 : expectChar '-' (l.dropWhile isPySpace) with
    | none => simp [he1]
    | some r1 =>
      simp only [he1] at h
      simp only [he1, Option.some_bind]
      split at h
      · cases h
      · next ht2 =>
        rw [consumeWs_of_ne_nil r1 ls ht2]
        cases he2 : expectChar '[' (r1.dropWhile isPySpace) with
        | none => simp [he2]
        | some r2 =>
          simp only [he2] at h
          simp only [he2, Option.some_bind]
          split at h
          · cases h
          · next ht3 =>
            rw [consumeWs_of_ne_nil r2 ls ht3]
            cases he3 : expectChar ']' (r2.dropWhile isPySpace) with
            | none => simp [he3]
            | some r3 =>
              simp only [he3] at h
              simp only [he3, Option.some_bind]
              rw [matchGroup_of_ne_nil r3 ls (by simpa using h)]
              unfold groupOfLine
              rw [if_neg (by simpa using h)]
              rfl
/-- On a document without hungry lines the scan degenerates to the
per-line matcher. -/
theorem scanLines_of_no_hungry : ∀ ls : List (List Char),
    (∀ l ∈ ls, lineHungry l = false) →
    uncheckedScanLines ls.length ls = ls.filterMap uncheckedItemCore := by
  intro ls
  induction ls with
  | nil => intro _; rfl
  | cons l ls ih =>
    intro h
    have hl : lineHungry l = false := h l (List.mem_cons_self l ls)
    have hrest : ∀ x ∈ ls, lineHungry x = false :=
      fun x hx => h x (List.mem_cons_of_mem l hx)
    show uncheckedScanLines (ls.length + 1) (l :: ls) = _
    simp only [uncheckedScanLines, matchAt_of_not_hungry l ls hl,
      List.filterMap_cons]
    cases hu : uncheckedItemCore l with
    | none => simpa [hu] using ih hrest
    | some g => simpa [hu] using ih hrest

/-- `consumeWs` never moves backward in the line list. -/
theorem consumeWs_rest_le : ∀ (ls : List (List Char)) (cs : List Char),
    (consumeWs cs ls).2.length ≤ ls.length := by
  intro ls
  induction ls with
  | nil => intro cs; simp [consumeWs]
  | cons next more ih =>
    intro cs
    unfold consumeWs
    by_cases hw : (cs.dropWhile isPySpace).isEmpty
    · simp only [hw, if_true]
      exact Nat.le_trans (ih next) (Nat.le_succ _)
    · simp [hw]

/-- `matchGroup` never moves backward in the line list. -/
theorem matchGroup_rest_le : ∀ (ls : List (List Char)) (cs g : List Char)
    (rest : List (List Char)), matchGroup cs ls = some (g, rest) →
    rest.length ≤ ls.length := by
  intro ls
  induction ls with
  | nil =>
    intro cs g rest h
    unfold matchGroup at h
    by_cases hw : (cs.dropWhile isPySpace).isEmpty
    · simp only [hw, if_true] at h
      cases hg : cs.getLast? with
      | some c =>
        rw [hg] at h
        simp only [Option.some.injEq, Prod.mk.injEq] at h
        rw [← h.2]
      | none => rw [hg] at h; cases h
    · simp [hw] at h
      rcases h with ⟨h1, h2⟩
      subst h2
      exact Nat.le_refl _
  | cons next more ih =>
    intro cs g rest h
    unfold matchGroup at h
    by_cases hw : (cs.dropWhile isPySpace).isEmpty
    · simp only [hw, if_true] at h
      cases hm : matchGroup next more with
      | some r =>
        rw [hm] at h
        simp only [Option.some.injEq] at h
        rw [h] at hm
        exact Nat.le_trans (ih _ _ _ hm) (Nat.le_succ _)
      | none =>
        rw [hm] at h
        cases hg : cs.getLast? with
        | some c =>
          rw [hg] at h
          simp only [Option.some.injEq, Prod.mk.injEq] at h
          rw [← h.2]
        | none => rw [hg] at h; cases h
    · simp [hw] at h
      rcases h with ⟨h1, h2⟩
      subst h2
      exact Nat.le_refl _

/-- A successful match consumes lines monotonically: its rest is within
the lines following the start line. -/
theorem matchAt_rest_le (l : List Char) (ls : List (List Char))
    (g : List Char) (rest : List (List Char))
    (h : matchAt l ls = some (g, rest)) : rest.length ≤ ls.length := by
  unfold matchAt at h
  dsimp only at h
  cases he1 : expectChar '-' (consumeWs l ls).1 with
  | none => rw [he1] at h; cases h
  | some r1 =>
    rw [he1] at h
    simp only [Option.some_bind] at h
    cases he2 : expectChar '[' (consumeWs r1 (consumeWs l ls).2).1 with
    | none => rw [he2] at h; cases h
    | some r2 =>
      rw [he2] at h
      simp only [Option.some_bind] at h
      cases he3 : expectChar ']'
          (consumeWs r2 (consumeWs r1 (consumeWs l ls).2).2).1 with
      | none => rw [he3] at h; cases h
      | some r3 =>
        rw [he3] at h
        simp only [Option.some_bind] at h
        have h4 := matchGroup_rest_le _ _ _ _ h
        have h3 := consumeWs_rest_le (consumeWs r1 (consumeWs l ls).2).2 r2
        have h2 := consumeWs_rest_le (consumeWs l ls).2 r1
        have h1 := consumeWs_rest_le ls l
        omega

/-- The scan result does not depend on the fuel once the fuel covers the
number of lines: the fuel-exhausted fallback of `uncheckedScanLines` is
unreachable from `uncheckedMatches`. -/
theorem uncheckedScanLines_fuel : ∀ (f g : Nat) (ls : List (List Char)),
    ls.length ≤ f → ls.length ≤ g →
    uncheckedScanLines f ls = uncheckedScanLines g ls := by
  intro f
  induction f with
  | zero =>
    intro g ls hf _
    have : ls = [] := List.eq_nil_of_length_eq_zero (by omega)
    subst this
    cases g <;> rfl
  | succ f ih =>
    intro g ls hf hg
    cases ls with
    | nil => cases g <;> rfl
    | cons l ls =>
      cases g with
      | zero => simp at hg
      | succ g' =>
        show uncheckedScanLines (f + 1) (l :: ls)
          = uncheckedScanLines (g' + 1) (l :: ls)
        simp only [uncheckedScanLines]
        cases hm : matchAt l ls with
        | none =>
          exact ih g' ls (by simpa using Nat.le_of_succ_le_succ hf)
            (by simpa using Nat.le_of_succ_le_succ hg)
        | some gr =>
          obtain ⟨grp, rest⟩ := gr
          have hle := matchAt_rest_le l ls grp rest hm
          simp only [List.length_cons] at hf hg
          simp only [ih g' rest (by omega) (by omega)]

/-- **C7, counterexample.**  The claim reads the code's unchecked-item
regex as a per-line pattern, but `re.MULTILINE` only moves the `^`/`$`
anchors: `\s` still matches newline, so matches can span line breaks.
On `"- \n[ ] a"` no single line matches the pattern (second conjunct),
yet `check_milestone_complete` returns `(False, ["a"])` — refuting the
claimed "`(True, [])` iff zero lines match".  The insertion sentence
fails on the same mechanism: `"- [ ]"` alone is complete, but inserting
the unchecked line `"- [ ]  item"` after it makes the dangling stub
match across the newline, capturing `"- [ ]  item"` — not `"item"`
verbatim. -/
theorem C7_counterexample :
    check_milestone_complete "- \n[ ] a" = (false, ["a"]) ∧
    (pyLines "- \n[ ] a").filterMap uncheckedItem? = [] ∧
    check_milestone_complete "- [ ]" = (true, []) ∧
    check_milestone_complete "- [ ]\n- [ ]  item"
      = (false, ["- [ ]  item"]) :=
  ⟨by decide, by decide, by decide, by decide⟩

/-- **C7, amended.**  `check_milestone_complete` returns `(True, [])`
iff the document contains zero occurrences of the unchecked-item regex,
where — `\s` matching newline — an occurrence may span line breaks
(`uncheckedMatches`); and inserting one unchecked line `"- [ ]  item"`
into a previously complete document none of whose lines is "hungry"
(all-whitespace, or a dangling `-` / `- [` / `- [ ]` bracket stub, the
lines a cross-line match can start from or run through) makes it return
`(False, ["item"])`, the item text captured verbatim. -/
theorem C7_amended :
    (∀ content : String,
      check_milestone_complete content = (true, []) ↔
        uncheckedMatches content = []) ∧
    (∀ (c c' : String) (A B : List (List Char)),
      linesOf c = A ++ B →
      linesOf c' = A ++ ["- [ ]  item".data] ++ B →
      (∀ l ∈ A ++ B, lineHungry l = false) →
      check_milestone_complete c = (true, []) →
      check_milestone_complete c' = (false, ["item"])) := by
  have hiff : ∀ content : String,
      check_milestone_complete content = (true, []) ↔
        uncheckedMatches content = [] := by
    intro content
    unfold check_milestone_complete
    constructor
    · intro h
      have h2 := congrArg Prod.snd h
      simpa using h2
    · intro h
      simp [h]
  refine ⟨hiff, ?_⟩
  intro c c' A B hc hc' hhun hcomp
  have hhun' : ∀ l ∈ A ++ ["- [ ]  item".data] ++ B,
      lineHungry l = false := by
    intro l hl
    rcases List.mem_append.mp hl with h1 | h2
    · rcases List.mem_append.mp h1 with ha | hu
      · exact hhun l (List.mem_append.mpr (Or.inl ha))
      · rw [List.mem_singleton.mp hu]
        decide
    · exact hhun l (List.mem_append.mpr (Or.inr h2))
  have hscanc : uncheckedScanLines (linesOf c).length (linesOf c)
      = (A ++ B).filterMap uncheckedItemCore := by
    rw [hc]
    exact scanLines_of_no_hungry _ hhun
  have hscan0 : (A ++ B).filterMap uncheckedItemCore = [] := by
    have hmc : uncheckedMatches c = [] := (hiff c).mp hcomp
    unfold uncheckedMatches at hmc
    rw [hscanc] at hmc
    simpa using hmc
  rw [List.filterMap_append] at hscan0
  obtain ⟨hA, hB⟩ := List.append_eq_nil.mp hscan0
  have hcu : uncheckedItemCore "- [ ]  item".data = some "item".data := by
    decide
  have hm' : uncheckedMatches c' = ["item"] := by
    unfold uncheckedMatches
    rw [hc']
    rw [scanLines_of_no_hungry _ hhun']
    rw [List.filterMap_append, List.filterMap_append, hA, hB]
    simp [hcu]
  unfold check_milestone_complete
  rw [hm']
  decide

/-- **C7, amended, witness**: inserting `"- [ ]  item"` after the
checked line `"- [x] a"`. -/
theorem C7_amended_witness :
    check_milestone_complete "- [x] a\n- [ ]  item" = (false, ["item"]) :=
  C7_amended.2 "- [x] a" "- [x] a\n- [ ]  item" ["- [x] a".data] []
    (by decide) (by decide) (by decide) (by decide)

/-- **C5, counterexample.**  The claim that the exact filename patterns
are tried first is false: the contains-search loop runs before the
patterns loop in `_find_milestone_spec`, so with milestone token `"M1"`
and a directory listing `["zz_m1_notes.md", "M1.md"]` the exact-pattern
file `M1.md` exists, yet the function returns `zz_m1_notes.md`, the first
file whose name case-insensitively contains the token. -/
theorem C5_counterexample :
    find_milestone_spec true ["zz_m1_notes.md", "M1.md"] "M1"
        = some "zz_m1_notes.md" ∧
    "M1.md" ∈ ["zz_m1_notes.md", "M1.md"] ∧
    find_milestone_spec true ["zz_m1_notes.md", "M1.md"] "M1"
        ≠ some "M1.md" := by
  refine ⟨by decide, by decide, by decide⟩

/-- **C5, amended.**  `_find_milestone_spec` first scans the milestones
directory for a file whose name case-insensitively contains the milestone
token and returns the first such file; only when no file contains the
token does it fall back to the exact filename patterns
(`<milestone>.md`, the space-substituted variant, and the `M`-prefixed
variant), returning the first pattern naming an existing file; a missing
milestones directory yields `none`. -/
theorem C5_amended (files : List String) (m : String) :
    (∀ f, files.find? (fun f' => pyInStr (pyLower m) (pyLower f'))
        = some f →
      find_milestone_spec true files m = some f) ∧
    ((∀ f ∈ files, pyInStr (pyLower m) (pyLower f) = false) →
      find_milestone_spec true files m
        = (milestonePatterns m).find? (fun p => files.contains p)) ∧
    find_milestone_spec false files m = none := by
  refine ⟨?_, ?_, rfl⟩
  · intro f h
    simp [find_milestone_spec, h]
  · intro h
    have hnone : files.find? (fun f' => pyInStr (pyLower m) (pyLower f'))
        = none :=
      List.find?_eq_none.mpr (fun x hx => by simp [h x hx])
    simp [find_milestone_spec, hnone]

/-- **C5, amended, witness**: with only `M1.md` in the directory the
contains-search already returns it. -/
theorem C5_amended_witness :
    find_milestone_spec true ["M1.md"] "M1" = some "M1.md" :=
  (C5_amended ["M1.md"] "M1").1 "M1.md" (by decide)


/-- `dictSet` then `dictLookup` at the same key. -/
theorem dictLookup_dictSet_self (es : List (String × CVal)) (k : String)
    (v : CVal) : dictLookup (dictSet es k v) k = some v := by
  induction es with
  | nil => simp [dictSet, dictLookup]
  | cons kv rest ih =>
    unfold dictSet
    split
    · next heq => simp [dictLookup, heq]
    · next hne => simpa [dictLookup, hne] using ih

/-- `dictSet` leaves other keys alone. -/
theorem dictLookup_dictSet_ne (es : List (String × CVal)) (k q : String)
    (v : CVal) (h : q ≠ k) :
    dictLookup (dictSet es k v) q = dictLookup es q := by
  induction es with
  | nil =>
    simp only [dictSet, dictLookup]
    rw [if_neg (fun h' : k = q => h h'.symm)]
  | cons kv rest ih =>
    unfold dictSet
    split
    · next heq =>
      have hne : ¬ (kv.1 = q) := by
        rw [heq]; exact fun h' => h h'.symm
      simp [dictLookup, hne]
    · next hne2 => simp [dictLookup, ih]

/-- `Config.get` reads back a `setSectionKey` assignment. -/
theorem get_setSectionKey_self (cfg cfg' : List (String × CVal))
    (s k : String) (v : CVal) (h : setSectionKey cfg s k v = some cfg') :
    Config.get cfg' [s, k] = some v := by
  unfold setSectionKey at h
  split at h
  · next d hd =>
    cases h
    unfold Config.get configGetPath
    rw [dictLookup_dictSet_self]
    simp [configGetPath, dictLookup_dictSet_self]
  · exact absurd h (by simp)

/-- `setSectionKey` leaves other sections untouched. -/
theorem get_setSectionKey_other (cfg cfg' : List (String × CVal))
    (s k s' : String) (ks : List String) (v : CVal)
    (h : setSectionKey cfg s k v = some cfg') (hne : s' ≠ s) :
    Config.get cfg' (s' :: ks) = Config.get cfg (s' :: ks) := by
  unfold setSectionKey at h
  split at h
  · next d hd =>
    cases h
    unfold Config.get configGetPath
    rw [dictLookup_dictSet_ne _ _ _ _ hne]
  · exact absurd h (by simp)

/-- `applyEnvVar` leaves other sections untouched. -/
theorem get_applyEnvVar_other (cfg cfg' : List (String × CVal))
    (env : String → Option String) (var s k s' : String) (ks : List String)
    (h : applyEnvVar cfg env var s k = some cfg') (hne : s' ≠ s) :
    Config.get cfg' (s' :: ks) = Config.get cfg (s' :: ks) := by
  unfold applyEnvVar at h
  split at h
  · cases h; rfl
  · split at h
    · split at h
      · exact get_setSectionKey_other _ _ _ _ _ _ _ h hne
      · exact absurd h (by simp)
    · exact get_setSectionKey_other _ _ _ _ _ _ _ h hne

/-- `applyEnvVar` on a set variable with a non-`max_tokens` key stores
the raw string. -/
theorem applyEnvVar_set_str (cfg cfg' : List (String × CVal))
    (env : String → Option String) (var s k v : String)
    (hk : k ≠ "max_tokens") (hv : env var = some v)
    (h : applyEnvVar cfg env var s k = some cfg') :
    Config.get cfg' [s, k] = some (.str v) := by
  unfold applyEnvVar at h
  simp only [hv] at h
  rw [if_neg hk] at h
  exact get_setSectionKey_self _ _ _ _ _ h

/-- `applyEnvVar` on a set variable with the `max_tokens` key stores the
parsed integer. -/
theorem applyEnvVar_set_int (cfg cfg' : List (String × CVal))
    (env : String → Option String) (var s v : String)
    (hv : env var = some v)
    (h : applyEnvVar cfg env var s "max_tokens" = some cfg') :
    ∃ n, pyInt? v = some n ∧
      Config.get cfg' [s, "max_tokens"] = some (.int n) := by
  unfold applyEnvVar at h
  simp only [hv, if_pos] at h
  split at h
  · next n hn => exact ⟨n, hn, get_setSectionKey_self _ _ _ _ _ h⟩
  · exact absurd h (by simp)

/-- **C10.**  For every key path in the environment-override allow-list,
a set environment variable determines the value `Config.get` resolves on
that path, regardless of the defaults and of the YAML sections
(`bridge`/`project`) merged before the environment pass — with `int`
coercion for the `max_tokens` key. -/
theorem C10_env_override_precedence (bridge project : List (String × CVal))
    (env : String → Option String) (cfg : List (String × CVal))
    (hinit : Config.init bridge project env = some cfg) :
    (∀ v, env "HMAS_LEAD_INTERFACE" = some v →
      Config.get cfg ["lead_dev", "interface"] = some (.str v)) ∧
    (∀ v, env "HMAS_CONTEXT_MAX_TOKENS" = some v →
      ∃ n, pyInt? v = some n ∧
        Config.get cfg ["context", "max_tokens"] = some (.int n)) ∧
    (∀ v, env "HMAS_LOG_LEVEL" = some v →
      Config.get cfg ["output", "log_level"] = some (.str v)) := by
  unfold Config.init load_env at hinit
  simp only [Bind.bind] at hinit
  rw [Option.bind_eq_some] at hinit
  obtain ⟨cfg1, h1, hrest⟩ := hinit
  rw [Option.bind_eq_some] at hrest
  obtain ⟨cfg2, h2, h3⟩ := hrest
  refine ⟨?_, ?_, ?_⟩
  · intro v hv
    rw [get_applyEnvVar_other _ _ _ _ _ _ _ _ h3 (by decide),
      get_applyEnvVar_other _ _ _ _ _ _ _ _ h2 (by decide)]
    exact applyEnvVar_set_str _ _ _ _ _ _ _ (by decide) hv h1
  · intro v hv
    obtain ⟨n, hn, hget⟩ := applyEnvVar_set_int _ _ _ _ _ _ hv h2
    refine ⟨n, hn, ?_⟩
    rw [get_applyEnvVar_other _ _ _ _ _ _ _ _ h3 (by decide)]
    exact hget
  · intro v hv
    exact applyEnvVar_set_str _ _ _ _ _ _ _ (by decide) hv h3

/-- **C10, witness**: all three overrides set on top of empty YAML
sections. -/
theorem C10_witness :
    Config.get cfgW ["lead_dev", "interface"] = some (.str "gemini-api") ∧
    (∃ n, pyInt? "123" = some n ∧
      Config.get cfgW ["context", "max_tokens"] = some (.int n)) ∧
    Config.get cfgW ["output", "log_level"] = some (.str "debug") :=
  have T := C10_env_override_precedence [] [] envW cfgW rfl
  ⟨T.1 "gemini-api" rfl, T.2.1 "123" rfl, T.2.2 "debug" rfl⟩

/-- **C6 (code bug).**  `LeadDevInterface.__init__` documents
"explicit > config > default", but the config branch reads key path
`("bridge.lead_dev", "mode")`, which the loader never populates:
`_load_yaml_config` merges the `bridge:` YAML section at TOP level, so a
configured mode lands under `("lead_dev", "mode")`.  With no explicit
argument and a config file setting the interface mode to `"stub"`, the
constructed interface is INTERACTIVE: the configured value is present in
the config (second conjunct) but the lookup misses (third), so selection
falls to the default (fourth); an explicit argument still wins (fifth). -/
theorem C6_configured_mode_ignored :
    Config.init c6Bridge [] (fun _ => none) = some cfgC6 ∧
    Config.get cfgC6 ["lead_dev", "mode"] = some (.str "stub") ∧
    Config.get cfgC6 ["bridge.lead_dev", "mode"] = none ∧
    selectMode none cfgC6 = some .interactive ∧
    selectMode (some "stub") cfgC6 = some .stub :=
  ⟨rfl, rfl, rfl, rfl, rfl⟩


/-- `Nat.digitChar` is injective below 10. -/
theorem digitChar_inj_lt (a b : Nat) (ha : a < 10) (hb : b < 10)
    (h : Nat.digitChar a = Nat.digitChar b) : a = b := by
  have hfin : ∀ x y : Fin 10, Nat.digitChar x = Nat.digitChar y → x = y := by
    decide
  have := hfin ⟨a, ha⟩ ⟨b, hb⟩ h
  exact congrArg Fin.val this

/-- Mapping `Nat.digitChar` over digit lists (all entries `< 10`) is
injective. -/
theorem map_digitChar_inj : ∀ l1 l2 : List Nat,
    (∀ x ∈ l1, x < 10) → (∀ x ∈ l2, x < 10) →
    l1.map Nat.digitChar = l2.map Nat.digitChar → l1 = l2 := by
  intro l1
  induction l1 with
  | nil =>
    intro l2 _ _ h
    cases l2 with
    | nil => rfl
    | cons b bs => simp at h
  | cons a as ih =>
    intro l2 h1 h2 h
    cases l2 with
    | nil => simp at h
    | cons b bs =>
      simp only [List.map_cons, List.cons.injEq] at h
      have hab : a = b := digitChar_inj_lt a b
        (h1 a (List.mem_cons_self a as)) (h2 b (List.mem_cons_self b bs))
        h.1
      have := ih bs (fun x hx => h1 x (List.mem_cons_of_mem a hx))
        (fun x hx => h2 x (List.mem_cons_of_mem b hx)) h.2
      rw [hab, this]

/-- `Nat.toDigitsCore` in base 10 computes the reversed
`Nat.digits 10` rendering (for positive `n` within the fuel). -/
theorem toDigitsCore_eq_digits (f : Nat) : ∀ (n : Nat) (acc : List Char),
    0 < n → n < f →
    Nat.toDigitsCore 10 f n acc
      = ((Nat.digits 10 n).map Nat.digitChar).reverse ++ acc := by
  induction f with
  | zero => intro n acc _ h; omega
  | succ f ih =>
    intro n acc hn hf
    have hdig : Nat.digits 10 n = n % 10 :: Nat.digits 10 (n / 10) :=
      Nat.digits_def' (by norm_num) hn
    rw [Nat.toDigitsCore, hdig]
    simp only [List.map_cons, List.reverse_cons]
    by_cases hq : n / 10 = 0
    · rw [if_pos hq, hq]
      simp
    · rw [if_neg hq]
      have hlt : n / 10 < n := Nat.div_lt_self hn (by norm_num)
      rw [ih (n / 10) (Nat.digitChar (n % 10) :: acc) (Nat.pos_of_ne_zero hq)
        (by omega)]
      simp [List.append_assoc]

/-- `Nat.repr` of a positive number, through `Nat.digits`. -/
theorem repr_eq_digits (n : Nat) (hn : 0 < n) :
    Nat.repr n = (((Nat.digits 10 n).map Nat.digitChar).reverse).asString := by
  unfold Nat.repr Nat.toDigits
  rw [toDigitsCore_eq_digits (n + 1) n [] hn (by omega)]
  simp

/-- A positive number never prints as `"0"`. -/
theorem repr_pos_ne_repr_zero (b : Nat) (hb : 0 < b) :
    Nat.repr b ≠ Nat.repr 0 := by
  intro h
  have hdata := congrArg String.data h
  rw [repr_eq_digits b hb] at hdata
  have h0 : (Nat.repr 0).data = ['0'] := by decide
  rw [h0] at hdata
  simp only [List.asString] at hdata
  have hrev : (Nat.digits 10 b).map Nat.digitChar = ['0'] := by
    have := congrArg List.reverse hdata
    simpa using this
  cases hd : Nat.digits 10 b with
  | nil => rw [hd] at hrev; simp at hrev
  | cons d ds =>
    rw [hd] at hrev
    simp only [List.map_cons, List.cons.injEq] at hrev
    obtain ⟨h1, h2⟩ := hrev
    have hds : ds = [] := by
      cases ds with
      | nil => rfl
      | cons e es => simp at h2
    have hdlt : d < 10 := Nat.digits_lt_base (by norm_num)
      (hd ▸ List.mem_cons_self d ds)
    have hd0 : d = 0 := digitChar_inj_lt d 0 hdlt (by norm_num)
      (by rw [h1]; rfl)
    have hb0 := Nat.ofDigits_digits 10 b
    rw [hd, hds, hd0] at hb0
    simp [Nat.ofDigits] at hb0
    omega

/-- Decimal printing `str(n)` is injective. -/
theorem natRepr_injective (a b : Nat) (h : Nat.repr a = Nat.repr b) :
    a = b := by
  rcases Nat.eq_zero_or_pos a with rfl | ha <;>
    rcases Nat.eq_zero_or_pos b with rfl | hb
  · rfl
  · exact absurd h.symm (repr_pos_ne_repr_zero b hb)
  · exact absurd h (repr_pos_ne_repr_zero a ha)
  · rw [repr_eq_digits a ha, repr_eq_digits b hb] at h
    have hlists : ((Nat.digits 10 a).map Nat.digitChar).reverse
        = ((Nat.digits 10 b).map Nat.digitChar).reverse := by
      have := congrArg String.data h
      simpa [List.asString] using this
    have hmap : (Nat.digits 10 a).map Nat.digitChar
        = (Nat.digits 10 b).map Nat.digitChar := by
      have := congrArg List.reverse hlists
      simpa using this
    have hdig := map_digitChar_inj _ _
      (fun x hx => Nat.digits_lt_base (by norm_num) hx)
      (fun x hx => Nat.digits_lt_base (by norm_num) hx) hmap
    calc a = Nat.ofDigits 10 (Nat.digits 10 a) :=
          (Nat.ofDigits_digits 10 a).symm
      _ = Nat.ofDigits 10 (Nat.digits 10 b) := by rw [hdig]
      _ = b := Nat.ofDigits_digits 10 b


/-- A decimal rendering is never empty. -/
theorem repr_length_pos (n : Nat) : 0 < (Nat.repr n).length := by
  rcases Nat.eq_zero_or_pos n with rfl | hn
  · decide
  · rw [repr_eq_digits n hn]
    have hne : Nat.digits 10 n ≠ [] :=
      Nat.digits_ne_nil_iff_ne_zero.mpr (by omega)
    simp only [List.asString, String.length, List.length_reverse,
      List.length_map]
    exact List.length_pos.mpr hne

/-- The candidate archive names are pairwise distinct. -/
theorem candName_inj (stem date : String) (m n : Nat)
    (h : candName stem date m = candName stem date n) : m = n := by
  match m, n with
  | 0, 0 => rfl
  | 0, k + 1 =>
    exfalso
    have hlen := congrArg String.length h
    simp only [candName, String.length_append] at hlen
    have h1 : ("_" : String).length = 1 := rfl
    have h2 : (".md" : String).length = 3 := rfl
    have h3 := repr_length_pos (k + 1)
    omega
  | j + 1, 0 =>
    exfalso
    have hlen := congrArg String.length h
    simp only [candName, String.length_append] at hlen
    have h1 : ("_" : String).length = 1 := rfl
    have h2 : (".md" : String).length = 3 := rfl
    have h3 := repr_length_pos (j + 1)
    omega
  | j + 1, k + 1 =>
    have hdata := congrArg String.data h
    simp only [candName, String.data_append, List.append_assoc] at hdata
    rw [List.append_right_inj, List.append_right_inj,
      List.append_right_inj, List.append_right_inj,
      List.append_left_inj] at hdata
    have := natRepr_injective (j + 1) (k + 1) (congrArg String.mk hdata)
    omega

/-- Among `names.length + 1` candidates at least one is not taken. -/
theorem exists_free_candidate (names : List String) (stem date : String) :
    ∃ k, k ≤ names.length ∧ candName stem date k ∉ names := by
  by_contra hc
  push_neg at hc
  have hinj : Set.InjOn (candName stem date)
      ↑(Finset.range (names.length + 1)) :=
    fun x _ y _ hxy => candName_inj stem date x y hxy
  have hmaps : ∀ a ∈ Finset.range (names.length + 1),
      candName stem date a ∈ names.toFinset := by
    intro a ha
    rw [List.mem_toFinset]
    exact hc a (Nat.lt_succ_iff.mp (Finset.mem_range.mp ha))
  have hcard := Finset.card_le_card_of_injOn _ hmaps hinj
  rw [Finset.card_range] at hcard
  have := List.toFinset_card_le names
  omega

/-- `fsHasName` decides membership in the directory listing. -/
theorem fsHasName_eq_false_iff (fs : List (String × String))
    (name : String) : fsHasName fs name = false ↔ name ∉ fsNames fs := by
  simp [fsHasName]

/-- If some candidate at index `< fuel` (relative to `k`) is free, the
collision loop ends on a free name. -/
theorem findArchiveNameAux_free (hist : List (String × String))
    (stem date : String) : ∀ fuel k,
    (∃ i, i < fuel ∧ fsHasName hist (candName stem date (k + i)) = false) →
    fsHasName hist (findArchiveNameAux hist stem date fuel k) = false := by
  intro fuel
  induction fuel with
  | zero =>
    intro k hex
    obtain ⟨i, hi, _⟩ := hex
    omega
  | succ f ih =>
    intro k hex
    obtain ⟨i, hi, hfree⟩ := hex
    cases htaken : fsHasName hist (candName stem date k) with
    | false => simp [findArchiveNameAux, htaken]
    | true =>
      simp only [findArchiveNameAux, htaken, if_true]
      apply ih
      have hine : i ≠ 0 := by
        intro h0
        rw [h0, Nat.add_zero] at hfree
        rw [htaken] at hfree
        cases hfree
      refine ⟨i - 1, by omega, ?_⟩
      rw [show k + 1 + (i - 1) = k + i by omega]
      exact hfree

/-- The archive name chosen by the collision loop never names an
existing file: `archive_milestone` never overwrites. -/
theorem findArchiveName_free (hist : List (String × String))
    (stem date : String) :
    fsHasName hist (findArchiveName hist stem date) = false := by
  obtain ⟨k, hk, hfree⟩ := exists_free_candidate (fsNames hist) stem date
  apply findArchiveNameAux_free
  refine ⟨k, ?_, ?_⟩
  · have hlen : (fsNames hist).length = hist.length := by simp [fsNames]
    omega
  · rw [Nat.zero_add]
    exact (fsHasName_eq_false_iff hist _).mpr hfree


/-- When the dateless candidate is free the loop picks it at once. -/
theorem findArchiveName_cand0 (hist : List (String × String))
    (stem date : String)
    (h : fsHasName hist (candName stem date 0) = false) :
    findArchiveName hist stem date = candName stem date 0 := by
  unfold findArchiveName
  simp [findArchiveNameAux, h]

/-- When the dateless candidate is taken and `_1` is free the loop picks
`_1`. -/
theorem findArchiveName_cand1 (hist : List (String × String))
    (stem date : String)
    (h0 : fsHasName hist (candName stem date 0) = true)
    (h1 : fsHasName hist (candName stem date 1) = false) :
    findArchiveName hist stem date = candName stem date 1 := by
  unfold findArchiveName
  cases hist with
  | nil => simp [fsHasName, fsNames] at h0
  | cons e es => simp [findArchiveNameAux, h0, h1]

/-- **C8.**  `archive_milestone` copies, never moves: starting from a
history directory containing neither `<stem>_<date>.md` nor
`<stem>_<date>_1.md`, two runs on the same source and date produce
exactly those two distinct archive files, appended without overwriting
anything, while the milestones directory (the original source file
included) is untouched by both runs; and in general the collision loop
(`_<n>` with `n` incrementing from 1) always lands on a name that does
not exist yet. -/
theorem C8_archive_copies_twice (st : ArchiveState) (stem date : String)
    (h0 : candName stem date 0 ∉ fsNames st.historyDir)
    (h1 : candName stem date 1 ∉ fsNames st.historyDir) :
    (archive_milestone st stem date).2 = candName stem date 0 ∧
    (archive_milestone st stem date).1.historyDir
      = st.historyDir ++ [(candName stem date 0, msContent st stem)] ∧
    (archive_milestone st stem date).1.milestonesDir = st.milestonesDir ∧
    (archive_milestone (archive_milestone st stem date).1 stem date).2
      = candName stem date 1 ∧
    (archive_milestone (archive_milestone st stem date).1 stem
        date).1.historyDir
      = st.historyDir ++ [(candName stem date 0, msContent st stem)]
          ++ [(candName stem date 1, msContent st stem)] ∧
    (archive_milestone (archive_milestone st stem date).1 stem
        date).1.milestonesDir = st.milestonesDir ∧
    candName stem date 0 ≠ candName stem date 1 ∧
    (∀ hist : List (String × String),
      fsHasName hist (findArchiveName hist stem date) = false) := by
  have hb0 : fsHasName st.historyDir (candName stem date 0) = false :=
    (fsHasName_eq_false_iff _ _).mpr h0
  have hb1 : fsHasName st.historyDir (candName stem date 1) = false :=
    (fsHasName_eq_false_iff _ _).mpr h1
  have hne : candName stem date 0 ≠ candName stem date 1 := by
    intro heq
    have := candName_inj stem date 0 1 heq
    omega
  have hn0 : findArchiveName st.historyDir stem date
      = candName stem date 0 := findArchiveName_cand0 _ _ _ hb0
  have hhist1 : (archive_milestone st stem date).1.historyDir
      = st.historyDir ++ [(candName stem date 0, msContent st stem)] := by
    simp [archive_milestone, hn0, fsWrite, hb0]
  have hms1 : (archive_milestone st stem date).1.milestonesDir
      = st.milestonesDir := rfl
  have hc1 : msContent (archive_milestone st stem date).1 stem
      = msContent st stem := by
    unfold msContent
    rw [hms1]
  have hb0' : fsHasName (archive_milestone st stem date).1.historyDir
      (candName stem date 0) = true := by
    rw [hhist1]
    simp [fsHasName, fsNames]
  have hb1' : fsHasName (archive_milestone st stem date).1.historyDir
      (candName stem date 1) = false := by
    rw [hhist1]
    rw [fsHasName_eq_false_iff]
    simp only [fsNames, List.map_append, List.mem_append]
    rintro (hmem | hmem)
    · exact h1 hmem
    · simp at hmem
      exact hne hmem.symm
  have hn1 : findArchiveName (archive_milestone st stem date).1.historyDir
      stem date = candName stem date 1 :=
    findArchiveName_cand1 _ _ _ hb0' hb1'
  refine ⟨by simp [archive_milestone, hn0], hhist1, hms1, hn1, ?_, rfl, hne,
    fun hist => findArchiveName_free hist stem date⟩
  · show fsWrite (archive_milestone st stem date).1.historyDir _ _ = _
    rw [hn1, hc1, fsWrite, if_neg (by rw [hb1']; exact Bool.false_ne_true),
      hhist1]

/-- **C8, witness**: archiving `M1_Auth.md` twice on 2026-01-01 into an
empty history directory. -/
theorem C8_witness :
    (archive_milestone ⟨[("M1_Auth.md", "spec")], []⟩ "M1_Auth"
        "20260101").2 = candName "M1_Auth" "20260101" 0 ∧
    (archive_milestone (archive_milestone ⟨[("M1_Auth.md", "spec")], []⟩
        "M1_Auth" "20260101").1 "M1_Auth" "20260101").2
      = candName "M1_Auth" "20260101" 1 ∧
    candName "M1_Auth" "20260101" 0 ≠ candName "M1_Auth" "20260101" 1 ∧
    (archive_milestone (archive_milestone ⟨[("M1_Auth.md", "spec")], []⟩
        "M1_Auth" "20260101").1 "M1_Auth" "20260101").1.milestonesDir
      = [("M1_Auth.md", "spec")] :=
  have T := C8_archive_copies_twice ⟨[("M1_Auth.md", "spec")], []⟩
    "M1_Auth" "20260101" (by simp [fsNames]) (by simp [fsNames])
  ⟨T.1, T.2.2.2.1, T.2.2.2.2.2.2.1, T.2.2.2.2.2.1⟩

end HMAS
